import Mathlib

/-!
Shallow embedding of `core/scenario/client_pool.go`: a bounded pool of
reusable HTTP client handles built on a buffered Go channel.

Modelling decisions, all taken from the Go source:

* A client handle (`*http.Client`) is identified by a natural number id;
  `Option Client` models the pointer, `none` being Go's `nil`.
* The `clients` buffered channel is a FIFO list (head = next element to be
  received) together with its capacity `maxCap` and a `closed` flag, exactly
  the observable state of a Go buffered channel in single-threaded execution.
* The struct field `c.clients` itself could in principle be a nil channel;
  `Put` tests `c.clients == nil`.  The flag `clientsIsNil` embeds that test.
  `NewClientPool` sets it to `false` and no code ever changes it.
* The factory is the stored `Factory` closure.  Each invocation produces a
  fresh handle; we give the n-th invocation the id `n` and track the total
  invocation count in `factoryCount`.
* `client.CloseIdleConnections()` — releasing a handle's transport
  resources — is recorded by prepending the handle to the `released` list.
* Go channel semantics used:
  - non-blocking receive (`select` with `default`): buffered element if any;
    on a closed empty channel the receive is immediately ready and yields the
    zero value (`nil`); on an open empty channel the `default` branch runs;
  - non-blocking send (`select` with `default`): on a closed channel the send
    case proceeds and panics; on a full open channel the `default` branch
    runs; otherwise the element is appended;
  - `close` of an already-closed channel panics;
  - `for x := range ch` on a closed channel drains the buffered elements in
    FIFO order and terminates.
  Panics are reified as explicit result values.
-/

namespace ClientPool

/-- A client handle id.  `Option Client` models a Go `*http.Client`,
with `none` for the nil pointer. -/
abbrev Client := Nat

/-- Observable state of the `clientPool` struct: the `clients` buffered
channel (contents, capacity, closed flag) and whether the channel field
itself is nil. -/
structure PoolState where
  buffer : List Client
  maxCap : Nat
  closed : Bool
  clientsIsNil : Bool
deriving Repr, DecidableEq

/-- A pool together with the ambient effects the claims talk about: how many
times the factory has been invoked, and which handles have had
`CloseIdleConnections` called on them. -/
structure World where
  pool : PoolState
  factoryCount : Nat
  released : List Client
deriving Repr, DecidableEq

/-- Result of `Put`: `ok` is a nil error, `errNil` is the
"client is nil. rejecting" error, `panicked` reifies a Go runtime panic
(send on a closed channel). -/
inductive PutResult where
  | ok : PutResult
  | errNil : PutResult
  | panicked : PutResult
deriving Repr, DecidableEq

/-- Result of `Done`: `ok`, or `panicked` for the runtime panic raised by
closing an already-closed channel. -/
inductive DoneResult where
  | ok : DoneResult
  | panicked : DoneResult
deriving Repr, DecidableEq

/-- The loop body of `NewClientPool` run `n` times: each iteration invokes
`pool.factory()` (yielding the fresh handle `w.factoryCount`) and sends it
on the channel.  Capacity is never exceeded because the constructor checks
`initialCap ≤ maxCap` first, so the blocking send never blocks. -/
def fill (w : World) : Nat → World
  | 0 => w
  | Nat.succ n =>
      fill { pool := { w.pool with buffer := w.pool.buffer ++ [w.factoryCount] }
           , factoryCount := w.factoryCount + 1
           , released := w.released } n

/-- Embedding of `NewClientPool(initialCap, maxCap, factory)`.  Returns the
constructed pool (or `none` for the "invalid capacity settings" error)
paired with the number of factory invocations performed by the call. -/
def NewClientPool (initialCap maxCap : Int) : Option World × Nat :=
  if initialCap < 0 ∨ maxCap ≤ 0 ∨ initialCap > maxCap then
    (none, 0)
  else
    (some (fill { pool := { buffer := []
                          , maxCap := maxCap.toNat
                          , closed := false
                          , clientsIsNil := false }
                , factoryCount := 0
                , released := [] } initialCap.toNat),
     initialCap.toNat)

/-- Embedding of `clientPool.Get`: a non-blocking receive from `c.clients`;
on the empty-and-open channel the `default` branch invokes the factory.
On a closed empty channel the receive yields the zero value `nil`
(returned as `none`). -/
def Get (w : World) : World × Option Client :=
  match w.pool.buffer with
  | c :: rest => ({ w with pool := { w.pool with buffer := rest } }, some c)
  | [] =>
      if w.pool.closed then
        (w, none)
      else
        ({ w with factoryCount := w.factoryCount + 1 }, some w.factoryCount)

/-- Embedding of `clientPool.Put`: reject nil; if the channel field is nil,
release the handle and report success; otherwise try a non-blocking send
(which panics if the channel is closed, stores the handle if there is spare
capacity, and otherwise releases the handle and reports success). -/
def Put (w : World) (client : Option Client) : World × PutResult :=
  match client with
  | none => (w, PutResult.errNil)
  | some c =>
      if w.pool.clientsIsNil then
        ({ w with released := c :: w.released }, PutResult.ok)
      else if w.pool.closed then
        (w, PutResult.panicked)
      else if w.pool.buffer.length < w.pool.maxCap then
        ({ w with pool := { w.pool with buffer := w.pool.buffer ++ [c] } },
         PutResult.ok)
      else
        ({ w with released := c :: w.released }, PutResult.ok)

/-- Embedding of `clientPool.Len`: `len(conns)` on the buffered channel,
a Go `int`. -/
def Len (w : World) : Int := (w.pool.buffer.length : Int)

/-- The drain loop of `Done`: `for c := range c.clients` over the closed
channel, calling `CloseIdleConnections` on each buffered handle in FIFO
order. -/
def drainRelease (buf : List Client) (released : List Client) : List Client :=
  buf.foldl (fun acc c => c :: acc) released

/-- Embedding of `clientPool.Done`: `close(c.clients)` (a panic if the
channel is already closed) followed by draining and releasing every
resident handle. -/
def Done (w : World) : World × DoneResult :=
  if w.pool.closed then
    (w, DoneResult.panicked)
  else
    ({ pool := { w.pool with closed := true, buffer := [] }
     , factoryCount := w.factoryCount
     , released := drainRelease w.pool.buffer w.released },
     DoneResult.ok)

/-- One client-facing operation on an open-for-business pool, for stating
trace invariants over sequences of `Get` and `Put` calls. -/
inductive Op where
  | get : Op
  | put : Option Client → Op
deriving Repr, DecidableEq

/-- Execute one operation, keeping only the state. -/
def runOp (w : World) : Op → World
  | Op.get => (Get w).1
  | Op.put c => (Put w c).1

/-- Execute a sequence of operations from left to right. -/
def run (w : World) : List Op → World
  | [] => w
  | op :: ops => run (runOp w op) ops

/-- A sequence of consecutive `Put`s of the given (non-nil) handles. -/
def putSeq (w : World) (cs : List Client) : World :=
  cs.foldl (fun w c => (Put w (some c)).1) w

/-! Helper lemmas: closed forms for the loops, and preservation facts. -/

/-- Closed form of the constructor's fill loop: it appends the handles
produced by the next `n` factory invocations and advances the invocation
count, touching nothing else. -/
lemma fill_spec (n : Nat) : ∀ w : World,
    (fill w n).pool.buffer = w.pool.buffer ++ List.range' w.factoryCount n ∧
    (fill w n).factoryCount = w.factoryCount + n ∧
    (fill w n).pool.maxCap = w.pool.maxCap ∧
    (fill w n).pool.closed = w.pool.closed ∧
    (fill w n).pool.clientsIsNil = w.pool.clientsIsNil ∧
    (fill w n).released = w.released := by
  induction n with
  | zero => intro w; simp [fill]
  | succ n ih =>
      intro w
      have h := ih { pool := { w.pool with buffer := w.pool.buffer ++ [w.factoryCount] }
                   , factoryCount := w.factoryCount + 1
                   , released := w.released }
      simp only [fill] at h ⊢
      refine ⟨?_, ?_, h.2.2⟩
      · rw [h.1]; simp [List.range'_succ]
      · rw [h.2.1]; omega

/-- Closed form of the shutdown drain loop. -/
lemma drainRelease_eq (buf : List Client) : ∀ acc : List Client,
    drainRelease buf acc = buf.reverse ++ acc := by
  induction buf with
  | nil => intro acc; simp [drainRelease]
  | cons c cs ih =>
      intro acc
      simp only [drainRelease, List.foldl_cons] at ih ⊢
      rw [ih (c :: acc)]
      simp

/-- One `Get` or `Put` step never grows the buffer beyond capacity and
changes no field of the pool other than the buffer contents. -/
lemma runOp_pres (w : World) (op : Op) :
    (runOp w op).pool.maxCap = w.pool.maxCap ∧
    (runOp w op).pool.closed = w.pool.closed ∧
    (runOp w op).pool.clientsIsNil = w.pool.clientsIsNil ∧
    (w.pool.buffer.length ≤ w.pool.maxCap →
      (runOp w op).pool.buffer.length ≤ w.pool.maxCap) := by
  cases op with
  | get =>
      simp only [runOp, Get]
      cases hb : w.pool.buffer with
      | nil =>
          by_cases hc : w.pool.closed <;> simp [hb, hc]
      | cons c rest =>
          simp [hb]; omega
  | put c =>
      cases c with
      | none => simp [runOp, Put]
      | some c =>
          simp only [runOp, Put]
          by_cases hnil : w.pool.clientsIsNil
          · simp [hnil]
          · by_cases hc : w.pool.closed
            · simp [hnil, hc]
            · by_cases hlt : w.pool.buffer.length < w.pool.maxCap
              · simp [hnil, hc, hlt]; omega
              · simp [hnil, hc, hlt]

/-- Trace invariant: along any sequence of `Get`/`Put` operations the
capacity field is constant and the buffer stays within capacity. -/
lemma run_pres (ops : List Op) : ∀ w : World,
    (run w ops).pool.maxCap = w.pool.maxCap ∧
    (w.pool.buffer.length ≤ w.pool.maxCap →
      (run w ops).pool.buffer.length ≤ (run w ops).pool.maxCap) := by
  induction ops with
  | nil => intro w; exact ⟨rfl, fun h => h⟩
  | cons op ops ih =>
      intro w
      have hstep := runOp_pres w op
      have htail := ih (runOp w op)
      simp only [run]
      constructor
      · rw [htail.1, hstep.1]
      · intro h
        have h1 : (runOp w op).pool.buffer.length ≤ (runOp w op).pool.maxCap := by
          rw [hstep.1]; exact hstep.2.2.2 h
        exact htail.2 h1

/-- Closed form for a run of consecutive `Put`s of non-nil handles on an
open pool: the first `maxCap - len` handles are enqueued in order, the rest
are released (most recent first), and the other fields are unchanged. -/
lemma putSeq_open (cs : List Client) : ∀ w : World,
    w.pool.clientsIsNil = false → w.pool.closed = false →
    (putSeq w cs).pool.buffer
        = w.pool.buffer ++ cs.take (w.pool.maxCap - w.pool.buffer.length) ∧
    (putSeq w cs).released
        = (cs.drop (w.pool.maxCap - w.pool.buffer.length)).reverse ++ w.released ∧
    (putSeq w cs).pool.maxCap = w.pool.maxCap ∧
    (putSeq w cs).pool.closed = false ∧
    (putSeq w cs).pool.clientsIsNil = false ∧
    (putSeq w cs).factoryCount = w.factoryCount := by
  induction cs with
  | nil => intro w hnil hop; simp [putSeq, hnil, hop]
  | cons c cs ih =>
      intro w hnil hop
      simp only [putSeq, List.foldl_cons] at ih ⊢
      by_cases hlt : w.pool.buffer.length < w.pool.maxCap
      · have hput : (Put w (some c)).1
            = { w with pool := { w.pool with buffer := w.pool.buffer ++ [c] } } := by
          simp [Put, hnil, hop, hlt]
        rw [hput]
        have h := ih { w with pool := { w.pool with buffer := w.pool.buffer ++ [c] } }
          (by simp [hnil]) (by simp [hop])
        simp only at h
        have hcap : w.pool.maxCap - w.pool.buffer.length
            = (w.pool.maxCap - (w.pool.buffer.length + 1)) + 1 := by omega
        refine ⟨?_, ?_, h.2.2⟩
        · rw [h.1]; simp only [List.length_append, List.length_cons,
            List.length_nil, Nat.zero_add]
          rw [hcap, List.take_succ_cons, List.append_assoc, List.singleton_append]
        · rw [h.2.1]; simp only [List.length_append, List.length_cons,
            List.length_nil, Nat.zero_add]
          rw [hcap, List.drop_succ_cons]
      · have hput : (Put w (some c)).1 = { w with released := c :: w.released } := by
          simp [Put, hnil, hop, hlt]
        rw [hput]
        have h := ih { w with released := c :: w.released }
          (by simp [hnil]) (by simp [hop])
        simp only at h
        have hcap : w.pool.maxCap - w.pool.buffer.length = 0 := by omega
        refine ⟨?_, ?_, h.2.2⟩
        · rw [h.1]; simp [hcap]
        · rw [h.2.1]; simp [hcap]

/-! Claim theorems. -/

/-- Claim C7: for every pool state (open or shut down), `Put` of the nil
handle fails with the rejected-nil-handle error and leaves the pool state
entirely unchanged: `Len` is unchanged, no handle is enqueued, and no
handle's resources are released. -/
theorem put_nil_rejected (w : World) :
    Put w none = (w, PutResult.errNil) ∧
    Len (Put w none).1 = Len w ∧
    (Put w none).1.pool.buffer = w.pool.buffer ∧
    (Put w none).1.released = w.released :=
  ⟨rfl, rfl, rfl, rfl⟩

/-- Claim C6: `NewClientPool` fails (with the invalid-capacity error, the
only error it has) if and only if one of `initialCap ≥ 0`, `maxCap ≥ 1`,
`initialCap ≤ maxCap` is violated, and on failure the factory is never
invoked (the invocation count of the call is 0). -/
theorem construct_invalid_iff (initialCap maxCap : Int) :
    ((NewClientPool initialCap maxCap).1 = none ↔
      ¬(0 ≤ initialCap ∧ 1 ≤ maxCap ∧ initialCap ≤ maxCap)) ∧
    ((NewClientPool initialCap maxCap).1 = none →
      (NewClientPool initialCap maxCap).2 = 0) := by
  by_cases h : initialCap < 0 ∨ maxCap ≤ 0 ∨ initialCap > maxCap
  · refine ⟨?_, fun _ => by simp [NewClientPool, h]⟩
    simp only [NewClientPool, h, if_true]
    constructor
    · intro _; omega
    · intro _; trivial
  · refine ⟨?_, ?_⟩
    · simp only [NewClientPool, h, if_false]
      constructor
      · intro hc; exact absurd hc (by simp)
      · intro hc; exact absurd (by omega) hc
    · intro hn
      simp [NewClientPool, h] at hn

/-- Witness for C6 at the concrete invalid input `(-1, 5)`. -/
theorem construct_invalid_iff_witness :
    (NewClientPool (-1) 5).1 = none ∧ (NewClientPool (-1) 5).2 = 0 := by
  have h := construct_invalid_iff (-1) 5
  have hn : (NewClientPool (-1) 5).1 = none := h.1.mpr (by decide)
  exact ⟨hn, h.2 hn⟩

/-- Counterexample to claim C5 as stated: `(initialCap, maxCap) = (0, 0)`
satisfies `0 ≤ initialCap ≤ maxCap`, yet `NewClientPool` fails, because the
source also requires `maxCap > 0`. -/
theorem construct_zero_zero_fails :
    (0 : Int) ≤ 0 ∧ (0 : Int) ≤ (0 : Int) ∧ (NewClientPool 0 0).1 = none := by
  decide

/-- Claim C5, amended: for all `(initialCap, maxCap)` with
`0 ≤ initialCap ≤ maxCap` and `maxCap ≥ 1`, construction succeeds, invokes
the factory exactly `initialCap` times before returning, enqueues exactly
the produced handles in order, and `Len = initialCap` immediately after. -/
theorem construct_valid (initialCap maxCap : Int)
    (h0 : 0 ≤ initialCap) (h1 : 1 ≤ maxCap) (h2 : initialCap ≤ maxCap) :
    ∃ w : World,
      (NewClientPool initialCap maxCap).1 = some w ∧
      (NewClientPool initialCap maxCap).2 = initialCap.toNat ∧
      w.factoryCount = initialCap.toNat ∧
      w.pool.buffer = List.range' 0 initialCap.toNat ∧
      w.pool.maxCap = maxCap.toNat ∧
      Len w = initialCap := by
  have hg : ¬(initialCap < 0 ∨ maxCap ≤ 0 ∨ initialCap > maxCap) := by omega
  have hfill := fill_spec initialCap.toNat
    { pool := { buffer := [], maxCap := maxCap.toNat
              , closed := false, clientsIsNil := false }
    , factoryCount := 0, released := [] }
  refine ⟨fill { pool := { buffer := [], maxCap := maxCap.toNat
                         , closed := false, clientsIsNil := false }
               , factoryCount := 0, released := [] } initialCap.toNat,
          ?_, ?_, ?_, ?_, ?_, ?_⟩
  · simp [NewClientPool, hg]
  · simp [NewClientPool, hg]
  · rw [hfill.2.1]; simp
  · rw [hfill.1]; simp
  · rw [hfill.2.2.1]
  · simp only [Len]
    rw [hfill.1]
    simp only [List.nil_append, List.length_range']
    omega

/-- Witness for C5 at the spec's concrete scenario `(2, 5)`. -/
theorem construct_valid_witness :
    ∃ w : World,
      (NewClientPool 2 5).1 = some w ∧
      (NewClientPool 2 5).2 = (2 : Int).toNat ∧
      w.factoryCount = (2 : Int).toNat ∧
      w.pool.buffer = List.range' 0 (2 : Int).toNat ∧
      w.pool.maxCap = (5 : Int).toNat ∧
      Len w = 2 :=
  construct_valid 2 5 (by decide) (by decide) (by decide)

/-- Claim C3: for every successfully constructed pool and every finite
sequence of `Get`/`Put` operations on it, `Len` is never negative and never
exceeds `maxCap`. -/
theorem len_within_capacity (initialCap maxCap : Int) (w0 : World)
    (h : (NewClientPool initialCap maxCap).1 = some w0) (ops : List Op) :
    0 ≤ Len (run w0 ops) ∧ Len (run w0 ops) ≤ maxCap := by
  by_cases hg : initialCap < 0 ∨ maxCap ≤ 0 ∨ initialCap > maxCap
  · simp [NewClientPool, hg] at h
  · simp only [NewClientPool, hg, if_false] at h
    have hfill := fill_spec initialCap.toNat
      { pool := { buffer := [], maxCap := maxCap.toNat
                , closed := false, clientsIsNil := false }
      , factoryCount := 0, released := [] }
    rw [Option.some_inj] at h
    have hlen : w0.pool.buffer.length ≤ w0.pool.maxCap := by
      rw [← h, hfill.1, hfill.2.2.1]
      simp only [List.nil_append, List.length_range']
      omega
    have hcap : w0.pool.maxCap = maxCap.toNat := by
      rw [← h, hfill.2.2.1]
    have hrun := run_pres ops w0
    constructor
    · simp only [Len]; omega
    · have := hrun.2 hlen
      rw [hrun.1, hcap] at this
      simp only [Len]
      omega

/-- Witness for C3: a concrete pool and a concrete trace of four
operations. -/
theorem len_within_capacity_witness :
    0 ≤ Len (run ⟨⟨[0], 2, false, false⟩, 1, []⟩
          [Op.get, Op.put (some 5), Op.put (some 6), Op.put (some 7)]) ∧
    Len (run ⟨⟨[0], 2, false, false⟩, 1, []⟩
          [Op.get, Op.put (some 5), Op.put (some 6), Op.put (some 7)]) ≤ 2 :=
  len_within_capacity 1 2 ⟨⟨[0], 2, false, false⟩, 1, []⟩ (by decide)
    [Op.get, Op.put (some 5), Op.put (some 6), Op.put (some 7)]

/-- Counterexample to claim C1 as stated ("for every pool state"): on the
reachable state obtained by constructing a pool with `(0, 1)` and shutting
it down, the buffer is empty, yet `Get` returns the nil handle without
invoking the factory (the receive from the closed empty channel is ready
and yields the zero value, so the `default` branch never runs). -/
theorem get_after_shutdown_no_factory :
    (NewClientPool 0 1).1 = some ⟨⟨[], 1, false, false⟩, 0, []⟩ ∧
    Done ⟨⟨[], 1, false, false⟩, 0, []⟩
        = (⟨⟨[], 1, true, false⟩, 0, []⟩, DoneResult.ok) ∧
    Get ⟨⟨[], 1, true, false⟩, 0, []⟩
        = (⟨⟨[], 1, true, false⟩, 0, []⟩, none) := by
  decide

/-- Claim C1, amended: for every pool state on which `Done` has not been
called, `Get` is a non-blocking dequeue: on a non-empty buffer it returns
the pooled head handle with the factory count unchanged; on an empty buffer
it invokes the factory exactly once and returns the freshly created handle.
In both cases it returns a (non-nil) handle. -/
theorem get_open_spec (w : World) (h : w.pool.closed = false) :
    (∀ c rest, w.pool.buffer = c :: rest →
        Get w = ({ w with pool := { w.pool with buffer := rest } }, some c)) ∧
    (w.pool.buffer = [] →
        Get w = ({ w with factoryCount := w.factoryCount + 1 },
                 some w.factoryCount)) := by
  constructor
  · intro c rest hb
    simp [Get, hb]
  · intro hb
    simp [Get, hb, h]

/-- Witness for C1 at concrete open pools, one non-empty and one empty. -/
theorem get_open_spec_witness :
    Get ⟨⟨[7], 3, false, false⟩, 2, []⟩ = (⟨⟨[], 3, false, false⟩, 2, []⟩, some 7) ∧
    Get ⟨⟨[], 3, false, false⟩, 2, []⟩ = (⟨⟨[], 3, false, false⟩, 3, []⟩, some 2) := by
  have h1 := (get_open_spec ⟨⟨[7], 3, false, false⟩, 2, []⟩ rfl).1 7 [] rfl
  have h2 := (get_open_spec ⟨⟨[], 3, false, false⟩, 2, []⟩ rfl).2 rfl
  exact ⟨h1, h2⟩

/-- Claim C2: on an open pool whose buffer is full, `Put` of a non-nil
handle releases it immediately, does not enqueue it, and reports success;
and `maxCap + 1` consecutive `Put`s of non-nil handles on an initially
empty open pool leave `Len = maxCap`, with exactly the one extra handle
released. -/
theorem put_full_and_overflow :
    (∀ (w : World) (c : Client),
        w.pool.clientsIsNil = false → w.pool.closed = false →
        w.pool.buffer.length = w.pool.maxCap →
        Put w (some c) = ({ w with released := c :: w.released }, PutResult.ok)) ∧
    (∀ (w : World) (cs : List Client),
        w.pool.clientsIsNil = false → w.pool.closed = false →
        w.pool.buffer = [] → cs.length = w.pool.maxCap + 1 →
        Len (putSeq w cs) = (w.pool.maxCap : Int) ∧
        (putSeq w cs).pool.buffer = cs.take w.pool.maxCap ∧
        ∃ d, cs.drop w.pool.maxCap = [d] ∧
          (putSeq w cs).released = d :: w.released) := by
  constructor
  · intro w c hnil hop hfull
    simp [Put, hnil, hop, hfull]
  · intro w cs hnil hop hemp hlen
    have h := putSeq_open cs w hnil hop
    rw [hemp] at h
    simp only [List.length_nil, Nat.sub_zero, List.nil_append] at h
    have hdrop : (cs.drop w.pool.maxCap).length = 1 := by
      rw [List.length_drop]; omega
    obtain ⟨d, hd⟩ := List.length_eq_one.mp hdrop
    refine ⟨?_, h.1, d, hd, ?_⟩
    · simp only [Len]
      rw [h.1, List.length_take]
      omega
    · rw [h.2.1, hd]
      simp

/-- Witness for C2: a full pool of capacity 2, and three consecutive
`Put`s on an empty pool of capacity 2. -/
theorem put_full_and_overflow_witness :
    Put ⟨⟨[1, 2], 2, false, false⟩, 0, []⟩ (some 8)
        = (⟨⟨[1, 2], 2, false, false⟩, 0, [8]⟩, PutResult.ok) ∧
    Len (putSeq ⟨⟨[], 2, false, false⟩, 0, []⟩ [10, 11, 12]) = 2 ∧
    (putSeq ⟨⟨[], 2, false, false⟩, 0, []⟩ [10, 11, 12]).released = [12] := by
  have h1 := put_full_and_overflow.1 ⟨⟨[1, 2], 2, false, false⟩, 0, []⟩ 8 rfl rfl rfl
  have h2 := put_full_and_overflow.2 ⟨⟨[], 2, false, false⟩, 0, []⟩ [10, 11, 12]
    rfl rfl rfl rfl
  refine ⟨h1, by simpa using h2.1, ?_⟩
  obtain ⟨d, hd, hrel⟩ := h2.2.2
  have hd12 : d = 12 := by simpa using hd.symm
  rw [hrel, hd12]

/-- Claim C4 evaluation: `Put` of a non-nil handle on a pool that has been
shut down panics (the non-blocking send hits the closed channel) instead of
releasing the handle and returning success — the `c.clients == nil`
closed-pool branch is dead code, since `Done` closes the channel but never
sets the field to nil. -/
theorem put_after_shutdown_panics :
    (NewClientPool 0 1).1 = some ⟨⟨[], 1, false, false⟩, 0, []⟩ ∧
    Done ⟨⟨[], 1, false, false⟩, 0, []⟩
        = (⟨⟨[], 1, true, false⟩, 0, []⟩, DoneResult.ok) ∧
    Put ⟨⟨[], 1, true, false⟩, 0, []⟩ (some 0)
        = (⟨⟨[], 1, true, false⟩, 0, []⟩, PutResult.panicked) := by
  decide

/-- Claim C8: a single `Done` on an open pool succeeds, marks the channel
closed, drains the buffer completely, and releases every handle that was
resident in it. -/
theorem shutdown_drains_and_closes (w : World) (h : w.pool.closed = false) :
    (Done w).2 = DoneResult.ok ∧
    (Done w).1.pool.closed = true ∧
    (Done w).1.pool.buffer = [] ∧
    (Done w).1.released = w.pool.buffer.reverse ++ w.released ∧
    ∀ c ∈ w.pool.buffer, c ∈ (Done w).1.released := by
  have hR := drainRelease_eq w.pool.buffer w.released
  refine ⟨by simp [Done, h], by simp [Done, h], by simp [Done, h],
          by simp [Done, h, hR], ?_⟩
  intro c hc
  simp [Done, h, hR, hc]

/-- Witness for C8 at a concrete open pool holding two handles. -/
theorem shutdown_drains_and_closes_witness :
    (Done ⟨⟨[4, 5], 3, false, false⟩, 2, [9]⟩).2 = DoneResult.ok ∧
    (Done ⟨⟨[4, 5], 3, false, false⟩, 2, [9]⟩).1.released
        = [4, 5].reverse ++ [9] := by
  have h := shutdown_drains_and_closes ⟨⟨[4, 5], 3, false, false⟩, 2, [9]⟩ rfl
  exact ⟨h.1, h.2.2.2.1⟩

/-- Claim C9: `Done` completes once on an open pool, leaves the channel
closed, and a second `Done` on the result panics (close of an
already-closed channel) — the fatal branch is reached for every pool whose
first shutdown completed. -/
theorem shutdown_twice_panics (w : World) (h : w.pool.closed = false) :
    (Done w).2 = DoneResult.ok ∧
    (Done w).1.pool.closed = true ∧
    (Done (Done w).1).2 = DoneResult.panicked := by
  simp [Done, h]

/-- Witness for C9 at a concrete open pool. -/
theorem shutdown_twice_panics_witness :
    (Done ⟨⟨[], 1, false, false⟩, 0, []⟩).2 = DoneResult.ok ∧
    (Done ⟨⟨[], 1, false, false⟩, 0, []⟩).1.pool.closed = true ∧
    (Done (Done ⟨⟨[], 1, false, false⟩, 0, []⟩).1).2 = DoneResult.panicked :=
  shutdown_twice_panics ⟨⟨[], 1, false, false⟩, 0, []⟩ rfl

/-- Claim C10: on an open pool with a non-empty buffer (within capacity, as
every reachable pool is by C3), `Get` followed by `Put` of the returned
handle leaves `Len` unchanged. -/
theorem get_put_roundtrip_len (w : World)
    (hnil : w.pool.clientsIsNil = false) (hop : w.pool.closed = false)
    (hne : w.pool.buffer ≠ []) (hinv : w.pool.buffer.length ≤ w.pool.maxCap) :
    Len ((Put (Get w).1 (Get w).2).1) = Len w := by
  cases hb : w.pool.buffer with
  | nil => exact absurd hb hne
  | cons c rest =>
      have hget : Get w = ({ w with pool := { w.pool with buffer := rest } }, some c) := by
        simp [Get, hb]
      rw [hget]
      have hlt : rest.length < w.pool.maxCap := by
        rw [hb] at hinv
        simp only [List.length_cons] at hinv
        omega
      simp [Put, hnil, hop, hlt, Len, hb]

/-- Witness for C10 at a concrete open pool holding two handles. -/
theorem get_put_roundtrip_len_witness :
    Len ((Put (Get ⟨⟨[4, 5], 3, false, false⟩, 2, []⟩).1
              (Get ⟨⟨[4, 5], 3, false, false⟩, 2, []⟩).2).1)
      = Len ⟨⟨[4, 5], 3, false, false⟩, 2, []⟩ :=
  get_put_roundtrip_len ⟨⟨[4, 5], 3, false, false⟩, 2, []⟩ rfl rfl
    (by decide) (by decide)

end ClientPool
